import Mathlib

/-!
Shallow embedding of the RCON protocol engine from `src/rconProtocol.ts`
(class `RconProtocol`), together with proofs about the claims on its
behaviour.

Layer 1 (bytes): `createPacket`, `parsePacket`, and the `handleData`
while-loop over the byte stream, with Node `Buffer` semantics made
explicit (signed little-endian 32-bit reads, `slice` with negative
indices counting from the end of the buffer, zero-filled allocation).
Bytes are `Nat`s (values < 256 on real buffers); machine integers are
`Int` with explicit two's-complement reduction modulo 2^32.

Layer 2 (correlator): the `pendingRequests` map, `handlePacket`, `send`,
the command-timeout callback, and the socket `close` handler.  JavaScript
promise resolutions/rejections are modelled as an explicit list of
`Outcome`s; the `resolve`/`reject` closures stored in the map are
modelled by a `ReqKind` tag recording which closure the source installed
(`authenticate` installs the auth closures, `send` installs the main and
dummy closures).  The JS `Map` is an insertion-ordered association list.
-/

namespace Rcon

/-! ### Little-endian 32-bit integers (Node `writeInt32LE` / `readInt32LE`) -/

/-- The four little-endian bytes of a natural number below 2^32. -/
def le4 (n : Nat) : List Nat :=
  [n % 256, n / 256 % 256, n / 65536 % 256, n / 16777216 % 256]

/-- `Buffer.writeInt32LE`: two's-complement encoding of an `Int`. -/
def write32 (v : Int) : List Nat :=
  le4 ((v.emod 4294967296).toNat)

/-- `Buffer.readInt32LE(off)`: read four bytes little-endian, interpret as a
signed 32-bit integer.  Out-of-range reads yield byte 0, matching no claim's
use sites (the source always checks `length >= 4` first). -/
def readInt32LE (buf : List Nat) (off : Nat) : Int :=
  let u : Nat := buf.getD off 0 + 256 * buf.getD (off+1) 0 +
      65536 * buf.getD (off+2) 0 + 16777216 * buf.getD (off+3) 0
  if u < 2147483648 then (u : Int) else (u : Int) - 4294967296

/-! ### Packets (byte level) -/

/-- A decoded RCON packet as produced by `parsePacket`; the body is kept as
raw bytes (the source decodes them as UTF-8 text). -/
structure Packet where
  size : Int
  id : Int
  type : Int
  body : List Nat
  deriving DecidableEq, Repr

/-- `RconProtocol.createPacket` (lines 328-351): size = 4 + 4 + bodyLength + 2,
then little-endian size, id, type, the body bytes, and the two zero
terminator bytes left over from `Buffer.alloc`.  `body` is the UTF-8 byte
sequence of the body string (`Buffer.byteLength(body, 'utf8')` is its
length). -/
def createPacket (id type : Int) (body : List Nat) : List Nat :=
  let size : Nat := 4 + 4 + body.length + 2
  write32 (size : Int) ++ write32 id ++ write32 type ++ body ++ [0, 0]

/-- `RconProtocol.parsePacket` (lines 356-370).  `buffer.toString('utf8', 12,
bodyEnd)` clamps its bounds to the buffer and returns the empty string when
the end does not exceed the start, hence the `Int.toNat` clamping. -/
def parsePacket (buffer : List Nat) : Except String Packet :=
  if buffer.length < 14 then .error "Packet too small"
  else
    let size := readInt32LE buffer 0
    let id := readInt32LE buffer 4
    let type := readInt32LE buffer 8
    let bodyEnd : Int := min (12 + size - 10) ((buffer.length : Int) - 2)
    let body := (buffer.drop 12).take (bodyEnd - 12).toNat
    .ok ⟨size, id, type, body⟩

/-! ### The `handleData` while-loop -/

/-- Node `Buffer.slice(i)` / `Buffer.slice(0, i)` index normalisation: a
negative index counts from the end of the buffer, and the result is clamped
to `[0, len]`. -/
def normIdx (len : Nat) (i : Int) : Nat :=
  if i < 0 then ((len : Int) + i).toNat else min i.toNat len

/-- Everything one call to `handleData` produces: the packets handed to
`handlePacket` in arrival order, the `output.appendLine` log lines from the
`catch` block, the faults surfaced on the error channel (`emit('error')` /
exceptions escaping `handleData` — the source has no such site, so no
branch ever extends this list), the final `responseBuffer`, and whether the
while-loop exited (`false` = the fuel ran out before the loop condition or
`break` was reached, i.e. the loop was still running). -/
structure LoopOut where
  packets : List Packet
  logs : List String
  errors : List String
  buffer : List Nat
  exited : Bool
  deriving DecidableEq, Repr

/-- The `while` loop of `RconProtocol.handleData` (lines 241-262), with
explicit fuel.  Each iteration: if fewer than 4 bytes are buffered, exit;
read the declared size; if the buffer holds fewer than `size + 4` bytes,
`break`; otherwise slice off `buffer.slice(0, size + 4)` as the packet,
keep `buffer.slice(size + 4)`, and `parsePacket` it — a parse error is
caught and logged, and the loop continues. -/
def runLoop : Nat → List Nat → LoopOut
  | 0, buf => ⟨[], [], [], buf, false⟩
  | fuel+1, buf =>
    if buf.length < 4 then ⟨[], [], [], buf, true⟩
    else
      let size := readInt32LE buf 0
      if (buf.length : Int) < size + 4 then ⟨[], [], [], buf, true⟩
      else
        let cut := normIdx buf.length (size + 4)
        let r := runLoop fuel (buf.drop cut)
        match parsePacket (buf.take cut) with
        | .ok p => { r with packets := p :: r.packets }
        | .error e => { r with logs := ("Error parsing packet: " ++ e) :: r.logs }

/-- `RconProtocol.handleData` (lines 236-263): append the chunk to
`responseBuffer` and run the loop.  Fuel `length + 1` is enough for any
terminating run: every iteration that does not exit removes at least one
byte, or else removes none — in which case the state repeats and the real
loop never exits (`exited = false` reports exactly this). -/
def handleData (st data : List Nat) : LoopOut :=
  runLoop ((st ++ data).length + 1) (st ++ data)

/-- Feed a sequence of chunks through `handleData`, threading the retained
buffer, collecting the decoded packets in order. -/
def feedAll (st : List Nat) : List (List Nat) → List Packet × List Nat
  | [] => ([], st)
  | c :: cs =>
    let r := handleData st c
    let rest := feedAll r.buffer cs
    (r.packets ++ rest.1, rest.2)

/-- Streams on which the loop's frame arithmetic is sound: every size field
read at a frame boundary (when a full frame is buffered) is nonnegative.
Fuel-based so that concrete instances evaluate by kernel reduction. -/
def goodBufF : Nat → List Nat → Bool
  | 0, _ => false
  | fuel+1, s =>
    if s.length < 4 then true
    else
      let size := readInt32LE s 0
      if (s.length : Int) < size + 4 then true
      else if size < 0 then false
      else goodBufF fuel (s.drop (normIdx s.length (size + 4)))

def goodBuf (s : List Nat) : Bool := goodBufF (s.length + 1) s

/-! ### Layer 2: the request correlator -/

/-- Which `resolve`/`reject` closure pair the source stored for a pending
entry: `authenticate` stores the auth closures; `send` stores the main
closures (capturing the paired dummy id) and the dummy closures (capturing
the paired main id). -/
inductive ReqKind where
  | auth
  | mainReq (dummyId : Int)
  | sentinel (mainId : Int)
  deriving DecidableEq, Repr

/-- One entry of `pendingRequests` (lines 34-40): the originating command
text, the body fragments accumulated so far (arrival order), and the
closure tag.  (The `timeout` handle is modelled by the explicit timeout
event `onSendTimeout` below.) -/
structure PendingReq where
  kind : ReqKind
  command : String
  fragments : List String
  deriving DecidableEq, Repr

/-- The session state the correlator mutates: `authenticated`, the
`requestId` counter, whether `socket !== null`, and the `pendingRequests`
map as an insertion-ordered association list (JS `Map` iteration order). -/
structure ProtoState where
  authenticated : Bool
  requestId : Int
  socketConnected : Bool
  pending : List (Int × PendingReq)
  deriving DecidableEq, Repr

/-- Externally observable promise completions. -/
inductive Outcome where
  | resolved (id : Int) (value : String)
  | rejected (id : Int) (error : String)
  deriving DecidableEq, Repr

/-- A packet as seen by `handlePacket`: the body already decoded to text. -/
structure RPacket where
  id : Int
  type : Int
  body : String
  deriving DecidableEq, Repr

def MAX_PACKET_SIZE : Nat := 4096
def RESPONSE_TIMEOUT : Nat := 10000

/-- `pendingRequests.get`. -/
def lookupP (l : List (Int × PendingReq)) (i : Int) : Option PendingReq :=
  match l with
  | [] => none
  | (j, r) :: t => if j = i then some r else lookupP t i

/-- `pendingRequests.delete` (keys are unique in a JS `Map`). -/
def eraseP (l : List (Int × PendingReq)) (i : Int) : List (Int × PendingReq) :=
  l.filter (fun e => e.1 ≠ i)

/-- `pendingRequests.set`: update in place, or append a new key at the end
of the iteration order. -/
def setP (l : List (Int × PendingReq)) (i : Int) (r : PendingReq) :
    List (Int × PendingReq) :=
  match l with
  | [] => [(i, r)]
  | (j, s) :: t => if j = i then (j, r) :: t else (j, s) :: setP t i r

/-- Run the `resolve` closure of a pending entry.
* auth (lines 139-144): set `authenticated := true` and resolve the
  `connect` promise (the entry is *not* deleted here).
* main (lines 186-191): delete both the main and dummy ids and resolve the
  `send` promise with the argument.
* dummy (lines 205-212): look up the still-pending main entry; if present,
  join its fragments in arrival order and run the main entry's own
  `resolve` on that concatenation.
The fuel bounds the closure-call depth (a dummy closure calls one other
closure; the source never builds longer chains). -/
def applyResolve : Nat → ProtoState → Int → PendingReq → String →
    ProtoState × List Outcome
  | 0, st, _, _, _ => (st, [])
  | fuel+1, st, id, req, arg =>
    match req.kind with
    | .auth => ({ st with authenticated := true }, [.resolved id arg])
    | .mainReq dummyId =>
      ({ st with pending := eraseP (eraseP st.pending id) dummyId },
        [.resolved id arg])
    | .sentinel mainId =>
      match lookupP st.pending mainId with
      | some mreq => applyResolve fuel st mainId mreq (String.join mreq.fragments)
      | none => (st, [])

/-- Run the `reject` closure of a pending entry.
* auth (lines 145-148): reject the `connect` promise.
* main (lines 192-197): delete both ids and reject the `send` promise.
* dummy (line 213): `() => {}` — nothing. -/
def applyReject (st : ProtoState) (id : Int) (req : PendingReq) (err : String) :
    ProtoState × List Outcome :=
  match req.kind with
  | .auth => (st, [.rejected id err])
  | .mainReq dummyId =>
    ({ st with pending := eraseP (eraseP st.pending id) dummyId },
      [.rejected id err])
  | .sentinel _ => (st, [])

/-- First pending entry whose `command` is `'auth'` (the `for ... of`
scans in insertion order and `break`s at the first hit). -/
def firstAuth (l : List (Int × PendingReq)) : Option (Int × PendingReq) :=
  l.find? (fun e => e.2.command = "auth")

/-- `RconProtocol.handlePacket` (lines 268-323). -/
def handlePacket (st : ProtoState) (p : RPacket) : ProtoState × List Outcome :=
  if p.id = -1 then
    -- authentication failed: reject and delete the first 'auth' entry
    match firstAuth st.pending with
    | some (id, req) =>
      let r := applyReject st id req "Authentication failed"
      ({ r.1 with pending := eraseP r.1.pending id }, r.2)
    | none => (st, [])
  else
    match lookupP st.pending p.id with
    | none =>
      -- unknown id: maybe the second auth-response packet
      if p.type = 2 then
        match firstAuth st.pending with
        | some (id, req) =>
          let r := applyResolve 2 st id req ""
          ({ r.1 with pending := eraseP r.1.pending id }, r.2)
        | none => (st, [])  -- logged: unknown request ID
      else (st, [])  -- logged: unknown request ID
    | some req =>
      if p.type = 0 then
        -- RESPONSE: accumulate the fragment
        let req1 := { req with fragments := req.fragments ++ [p.body] }
        let st1 := { st with pending := setP st.pending p.id req1 }
        -- fast path: body shorter than MAX_PACKET_SIZE - 100 and the
        -- entry's command text is 'dummy' or '' → request.resolve('')
        if p.body.length < MAX_PACKET_SIZE - 100 ∧
            (req1.command = "dummy" ∨ req1.command = "") then
          applyResolve 2 st1 p.id req1 ""
        else (st1, [])
      else if p.type = 2 then
        -- AUTH_RESPONSE for a known id (no delete in this branch)
        if req.command = "auth" then applyResolve 2 st p.id req ""
        else (st, [])
      else (st, [])

/-- Standard UTF-8 encoding of one code point. -/
def utf8EncodeCp (n : Nat) : List Nat :=
  if n < 128 then [n]
  else if n < 2048 then [192 + n / 64, 128 + n % 64]
  else if n < 65536 then [224 + n / 4096, 128 + n / 64 % 64, 128 + n % 64]
  else [240 + n / 262144, 128 + n / 4096 % 64, 128 + n / 64 % 64, 128 + n % 64]

/-- UTF-8 bytes of a string, as `Buffer.from(s, 'utf8')` produces them. -/
def utf8Bytes (s : String) : List Nat :=
  (s.data.map (fun c => utf8EncodeCp c.toNat)).flatten

/-- `RconProtocol.send` (lines 165-231).  Returns `.error` when the guard
`!this.socket || !this.authenticated` throws (before any id is allocated,
any entry is registered, or any byte is written), else the updated state
and the two packets written in order (the command, then the dummy with
empty body; both use type `COMMAND = 2`). -/
def send (st : ProtoState) (command : String) :
    Except String (ProtoState × List (List Nat)) :=
  if st.socketConnected = false ∨ st.authenticated = false then
    .error "Not connected or authenticated"
  else
    let requestId := st.requestId + 1
    let dummyId := st.requestId + 2
    let st1 : ProtoState :=
      { st with
        requestId := dummyId
        pending :=
          setP (setP st.pending requestId ⟨.mainReq dummyId, command, []⟩)
            dummyId ⟨.sentinel requestId, "dummy", []⟩ }
    .ok (st1, [createPacket requestId 2 (utf8Bytes command),
      createPacket dummyId 2 (utf8Bytes "")])

/-- The `setTimeout` callback registered by `send` (lines 178-182): delete
the main and dummy entries and reject the `send` promise with the timeout
error. -/
def onSendTimeout (st : ProtoState) (requestId dummyId : Int) (command : String) :
    ProtoState × List Outcome :=
  ({ st with pending := eraseP (eraseP st.pending requestId) dummyId },
    [.rejected requestId ("Command timeout: " ++ command)])

/-- The `for ... of` loop of the `close` handler (lines 107-112): visit the
entries in insertion order, skipping any entry a previous `reject` closure
already deleted (a live JS `Map` iterator does not visit deleted entries),
and run each survivor's `reject` closure. -/
def closeLoop : List (Int × PendingReq) → ProtoState → ProtoState × List Outcome
  | [], st => (st, [])
  | (id, _) :: rest, st =>
    match lookupP st.pending id with
    | none => closeLoop rest st
    | some req =>
      let r1 := applyReject st id req "Connection closed"
      let r2 := closeLoop rest r1.1
      (r2.1, r1.2 ++ r2.2)

/-- The socket `close` handler (lines 101-114): clear `authenticated`,
reject every still-outstanding request, then `pendingRequests.clear()`. -/
def onClose (st : ProtoState) : ProtoState × List Outcome :=
  let st0 := { st with authenticated := false }
  let r := closeLoop st.pending st0
  ({ r.1 with pending := [] }, r.2)

/-- `RconProtocol.isConnected` (lines 404-406). -/
def isConnected (st : ProtoState) : Bool :=
  st.socketConnected && st.authenticated

/-! ### Association-list lemmas for the pending map -/

theorem lookupP_eraseP_self (l : List (Int × PendingReq)) (i : Int) :
    lookupP (eraseP l i) i = none := by
  induction l with
  | nil => rfl
  | cons e t ih =>
    by_cases h : e.1 = i
    · simpa [eraseP, h] using ih
    · simpa [eraseP, lookupP, h] using ih

theorem lookupP_eraseP_ne (l : List (Int × PendingReq)) {i j : Int} (h : i ≠ j) :
    lookupP (eraseP l i) j = lookupP l j := by
  induction l with
  | nil => rfl
  | cons e t ih =>
    by_cases he : e.1 = i
    · have hj : e.1 ≠ j := fun hj => h (he ▸ hj)
      rw [show eraseP (e :: t) i = eraseP t i by simp [eraseP, he],
        show lookupP (e :: t) j = lookupP t j by simp [lookupP, hj]]
      exact ih
    · rw [show eraseP (e :: t) i = e :: eraseP t i by simp [eraseP, he]]
      by_cases hj : e.1 = j
      · simp [lookupP, hj]
      · simp only [lookupP, hj, if_neg hj]
        exact ih

theorem lookupP_setP_ne (l : List (Int × PendingReq)) {i j : Int}
    (r : PendingReq) (h : i ≠ j) :
    lookupP (setP l i r) j = lookupP l j := by
  induction l with
  | nil => simp [setP, lookupP, h]
  | cons e t ih =>
    by_cases he : e.1 = i
    · have hj : e.1 ≠ j := fun hj => h (he ▸ hj)
      simp only [setP, if_pos he, lookupP, if_neg hj]
    · simp only [setP, if_neg he, lookupP]
      by_cases hj : e.1 = j
      · simp [hj]
      · simp only [if_neg hj]
        exact ih

theorem lookupP_mem {l : List (Int × PendingReq)} {i : Int} {r : PendingReq}
    (h : lookupP l i = some r) : (i, r) ∈ l := by
  induction l with
  | nil => simp [lookupP] at h
  | cons e t ih =>
    by_cases he : e.1 = i
    · simp only [lookupP, if_pos he] at h
      have : e = (i, r) := by
        cases e
        simp only at he
        simp [he, Option.some.injEq] at h
        simp [he, h]
      exact this ▸ List.mem_cons_self _ _
    · simp only [lookupP, if_neg he] at h
      exact List.mem_cons_of_mem _ (ih h)

/-! ### Claims about the correlator -/

/-- Helper: a `RESPONSE` packet for a known id, when the fast-path guard
fails, only appends the body to the entry's fragments. -/
theorem handlePacket_response_slow (st : ProtoState) (pid : Int)
    (pbody : String) (req : PendingReq)
    (hne : pid ≠ -1)
    (hm : lookupP st.pending pid = some req)
    (hcond : ¬(pbody.length < MAX_PACKET_SIZE - 100 ∧
      (req.command = "dummy" ∨ req.command = ""))) :
    handlePacket st ⟨pid, 0, pbody⟩ =
      ({ st with
          pending := setP st.pending pid
            ({ req with fragments := req.fragments ++ [pbody] }) }, []) := by
  simp only [handlePacket, if_neg hne, hm]
  rw [if_neg hcond]
  simp

/-- **C1** (amended): when a `RESPONSE`-type packet whose id equals the
sentinel (dummy) request's id *and whose body is shorter than
`MAX_PACKET_SIZE - 100` characters* is received while the main request is
still pending, the main request is resolved with the concatenation, in
arrival order, of all body fragments accumulated for the main id up to
that point, and both entries are removed from the pending map. -/
theorem c1_sentinel_completes_main (st : ProtoState) (pid mainId : Int)
    (pbody : String) (sreq mreq : PendingReq)
    (hne : pid ≠ -1)
    (hs : lookupP st.pending pid = some sreq)
    (hks : sreq.kind = .sentinel mainId)
    (hcs : sreq.command = "dummy")
    (hmid : mainId ≠ pid)
    (hm : lookupP st.pending mainId = some mreq)
    (hkm : mreq.kind = .mainReq pid)
    (hlen : pbody.length < MAX_PACKET_SIZE - 100) :
    handlePacket st ⟨pid, 0, pbody⟩ =
      ({ st with
          pending := eraseP (eraseP (setP st.pending pid
            ({ sreq with fragments := sreq.fragments ++ [pbody] })) mainId) pid },
        [.resolved mainId (String.join mreq.fragments)]) := by
  have hlen' : pbody.length < 3996 := by
    simpa [MAX_PACKET_SIZE] using hlen
  have hlk : lookupP (setP st.pending pid
      (⟨.sentinel mainId, "dummy", sreq.fragments ++ [pbody]⟩ : PendingReq)) mainId =
      lookupP st.pending mainId :=
    lookupP_setP_ne st.pending _ (Ne.symm hmid)
  simp [handlePacket, hne, hs, hks, hcs, MAX_PACKET_SIZE, hlen', applyResolve,
    hlk, hm, hkm]

/-- **C1 witness**: a concrete two-entry pending map; the sentinel response
resolves the main request with `"ab"` and empties the map. -/
theorem c1_sentinel_completes_main_witness :
    handlePacket
        ⟨true, 2, true, [(1, ⟨.mainReq 2, "list", ["a", "b"]⟩),
          (2, ⟨.sentinel 1, "dummy", []⟩)]⟩ ⟨2, 0, "ok"⟩ =
      (⟨true, 2, true, []⟩, [.resolved 1 "ab"]) := by
  have h := c1_sentinel_completes_main
    ⟨true, 2, true, [(1, ⟨.mainReq 2, "list", ["a", "b"]⟩),
      (2, ⟨.sentinel 1, "dummy", []⟩)]⟩ 2 1 "ok"
    ⟨.sentinel 1, "dummy", []⟩ ⟨.mainReq 2, "list", ["a", "b"]⟩
    (by decide) (by decide) rfl rfl (by decide) (by decide) rfl (by decide)
  exact h.trans (by decide)

/-- A concrete 3996-character body (exactly `MAX_PACKET_SIZE - 100`). -/
def longBody3996 : String := String.mk (List.replicate 3996 'a')

/-- **C1 counterexample**: the claim as stated (any sentinel-id `RESPONSE`
packet completes the main request) is false: with a sentinel response body
of exactly `MAX_PACKET_SIZE - 100 = 3996` characters the fast-path guard
`packet.body.length < this.MAX_PACKET_SIZE - 100` fails, no outcome is
produced, and the main request stays pending. -/
theorem c1_large_sentinel_body_not_completed :
    (handlePacket
        ⟨true, 2, true, [(1, ⟨.mainReq 2, "list", ["a", "b"]⟩),
          (2, ⟨.sentinel 1, "dummy", []⟩)]⟩
        ⟨2, 0, longBody3996⟩).2 = [] ∧
    lookupP (handlePacket
        ⟨true, 2, true, [(1, ⟨.mainReq 2, "list", ["a", "b"]⟩),
          (2, ⟨.sentinel 1, "dummy", []⟩)]⟩
        ⟨2, 0, longBody3996⟩).1.pending 1 =
      some ⟨.mainReq 2, "list", ["a", "b"]⟩ := by
  have hl : longBody3996.length = 3996 := by
    simp only [longBody3996, String.length, List.length_replicate]
  have he := handlePacket_response_slow
    ⟨true, 2, true, [(1, ⟨.mainReq 2, "list", ["a", "b"]⟩),
      (2, ⟨.sentinel 1, "dummy", []⟩)]⟩ 2 longBody3996
    ⟨.sentinel 1, "dummy", []⟩ (by decide) (by decide)
    (by simp [hl, MAX_PACKET_SIZE])
  refine ⟨by rw [he], by rw [he]; decide⟩

/-- **C2** (code bug): the spec says a `RESPONSE` packet for a pending main
id only appends its body and never itself completes the request, for every
command text including `'dummy'` and `''`.  The code instead identifies the
sentinel by its *command text*: for a user command equal to `''` (likewise
`'dummy'`), the first response fragment triggers `request.resolve('')`,
prematurely resolving the `send` promise with the empty string and dropping
the fragment just stored. -/
theorem c2_empty_command_resolved_prematurely :
    handlePacket
        ⟨true, 2, true, [(1, ⟨.mainReq 2, "", []⟩),
          (2, ⟨.sentinel 1, "dummy", []⟩)]⟩ ⟨1, 0, "x"⟩ =
      (⟨true, 2, true, []⟩, [.resolved 1 ""]) := by
  decide

/-- **C2 supporting fact** (the append part of the claim, which does hold):
for a pending main request whose command is neither `'dummy'` nor `''`, a
`RESPONSE` packet with the main id appends its body to the fragment list
and produces no outcome — the request is not completed. -/
theorem c2_response_appends_only (st : ProtoState) (pid : Int) (pbody : String)
    (mreq : PendingReq)
    (hne : pid ≠ -1)
    (hm : lookupP st.pending pid = some mreq)
    (hc1 : mreq.command ≠ "dummy")
    (hc2 : mreq.command ≠ "") :
    handlePacket st ⟨pid, 0, pbody⟩ =
      ({ st with
          pending := setP st.pending pid
            ({ mreq with fragments := mreq.fragments ++ [pbody] }) }, []) :=
  handlePacket_response_slow st pid pbody mreq hne hm
    (fun hc => hc.2.elim hc1 hc2)

/-- **C2 supporting fact witness**. -/
theorem c2_response_appends_only_witness :
    handlePacket
        ⟨true, 2, true, [(1, ⟨.mainReq 2, "list", []⟩),
          (2, ⟨.sentinel 1, "dummy", []⟩)]⟩ ⟨1, 0, "x"⟩ =
      (⟨true, 2, true, [(1, ⟨.mainReq 2, "list", ["x"]⟩),
        (2, ⟨.sentinel 1, "dummy", []⟩)]⟩, []) := by
  have h := c2_response_appends_only
    ⟨true, 2, true, [(1, ⟨.mainReq 2, "list", []⟩),
      (2, ⟨.sentinel 1, "dummy", []⟩)]⟩ 1 "x" ⟨.mainReq 2, "list", []⟩
    (by decide) (by decide) (by decide) (by decide)
  exact h.trans (by decide)

/-- **C6**: the timeout callback registered by `send` for ids it allocated
removes both the main and the sentinel entry from the pending map (no
memory of either id remains) and rejects the `send` promise with the
command-timeout error. -/
theorem c6_timeout_purges_both (st : ProtoState) (command : String)
    (st1 : ProtoState) (ws : List (List Nat))
    (_hsend : send st command = .ok (st1, ws)) :
    (onSendTimeout st1 (st.requestId + 1) (st.requestId + 2) command).2 =
      [.rejected (st.requestId + 1) ("Command timeout: " ++ command)] ∧
    lookupP (onSendTimeout st1 (st.requestId + 1) (st.requestId + 2) command).1.pending
      (st.requestId + 1) = none ∧
    lookupP (onSendTimeout st1 (st.requestId + 1) (st.requestId + 2) command).1.pending
      (st.requestId + 2) = none := by
  refine ⟨rfl, ?_, ?_⟩
  · simp only [onSendTimeout]
    rw [lookupP_eraseP_ne _ (by omega)]
    exact lookupP_eraseP_self _ _
  · simp only [onSendTimeout]
    exact lookupP_eraseP_self _ _

/-- **C6 witness**. -/
theorem c6_timeout_purges_both_witness :
    (onSendTimeout
        (⟨true, 2, true, [(1, ⟨.mainReq 2, "list", []⟩),
          (2, ⟨.sentinel 1, "dummy", []⟩)]⟩ : ProtoState) 1 2 "list").2 =
      [.rejected 1 "Command timeout: list"] ∧
    lookupP (onSendTimeout
        (⟨true, 2, true, [(1, ⟨.mainReq 2, "list", []⟩),
          (2, ⟨.sentinel 1, "dummy", []⟩)]⟩ : ProtoState) 1 2 "list").1.pending 1 = none ∧
    lookupP (onSendTimeout
        (⟨true, 2, true, [(1, ⟨.mainReq 2, "list", []⟩),
          (2, ⟨.sentinel 1, "dummy", []⟩)]⟩ : ProtoState) 1 2 "list").1.pending 2 = none := by
  have h := c6_timeout_purges_both ⟨true, 0, true, []⟩ "list"
    ⟨true, 2, true, [(1, ⟨.mainReq 2, "list", []⟩), (2, ⟨.sentinel 1, "dummy", []⟩)]⟩
    [createPacket 1 2 (utf8Bytes "list"), createPacket 2 2 (utf8Bytes "")]
    (by rfl)
  simpa using h

/-- **C8**: a packet with `id == -1` received while an auth request is
pending rejects that request with the authentication error, removes it from
the pending map, and leaves `isConnected()` false. -/
theorem c8_auth_failure (st : ProtoState) (p : RPacket) (authId : Int)
    (req : PendingReq)
    (hauth : st.authenticated = false)
    (hid : p.id = -1)
    (hfind : firstAuth st.pending = some (authId, req))
    (hkind : req.kind = .auth) :
    handlePacket st p =
      ({ st with pending := eraseP st.pending authId },
        [.rejected authId "Authentication failed"]) ∧
    isConnected (handlePacket st p).1 = false ∧
    lookupP (handlePacket st p).1.pending authId = none := by
  have h1 : handlePacket st p =
      ({ st with pending := eraseP st.pending authId },
        [.rejected authId "Authentication failed"]) := by
    simp only [handlePacket, if_pos hid, hfind, applyReject, hkind]
  refine ⟨h1, ?_, ?_⟩
  · rw [h1]
    simp [isConnected, hauth]
  · rw [h1]
    exact lookupP_eraseP_self _ _

/-- **C8 witness**. -/
theorem c8_auth_failure_witness :
    handlePacket (⟨false, 1, true, [(1, ⟨.auth, "auth", []⟩)]⟩ : ProtoState)
        ⟨-1, 2, ""⟩ =
      ((⟨false, 1, true, []⟩ : ProtoState), [.rejected 1 "Authentication failed"]) ∧
    isConnected (handlePacket (⟨false, 1, true, [(1, ⟨.auth, "auth", []⟩)]⟩ : ProtoState)
        ⟨-1, 2, ""⟩).1 = false := by
  have h := c8_auth_failure ⟨false, 1, true, [(1, ⟨.auth, "auth", []⟩)]⟩
    ⟨-1, 2, ""⟩ 1 ⟨.auth, "auth", []⟩ rfl rfl (by decide) rfl
  exact ⟨h.1.trans (by decide), h.2.1⟩

/-- **C10**: `send` invoked while disconnected (`socket === null`) or not
authenticated throws synchronously — before allocating ids, registering
entries, or writing to the socket — so the pending map and the request-id
counter are untouched (the `.error` result carries no state change and no
written packet). -/
theorem c10_send_guard (st : ProtoState) (command : String)
    (h : st.socketConnected = false ∨ st.authenticated = false) :
    send st command = .error "Not connected or authenticated" := by
  simp only [send, if_pos h]

/-- **C10 witness**. -/
theorem c10_send_guard_witness :
    send (⟨true, 7, false, []⟩ : ProtoState) "list" =
      .error "Not connected or authenticated" :=
  c10_send_guard ⟨true, 7, false, []⟩ "list" (Or.inl rfl)

/-! ### The close handler (C7) -/

theorem lookupP_eraseP_some {l : List (Int × PendingReq)} {k i : Int}
    {r : PendingReq} (h : lookupP (eraseP l k) i = some r) :
    lookupP l i = some r := by
  by_cases hk : k = i
  · rw [hk, lookupP_eraseP_self] at h
    cases h
  · rwa [lookupP_eraseP_ne l hk] at h

theorem mem_lookupP {l : List (Int × PendingReq)}
    (hnd : (l.map Prod.fst).Nodup) {i : Int} {r : PendingReq}
    (hm : (i, r) ∈ l) : lookupP l i = some r := by
  induction l with
  | nil => cases hm
  | cons e t ih =>
    rcases List.mem_cons.1 hm with he | ht
    · rw [← he]
      simp [lookupP]
    · have hnd' : (t.map Prod.fst).Nodup := (List.nodup_cons.1 hnd).2
      have hni : e.1 ∉ t.map Prod.fst := (List.nodup_cons.1 hnd).1
      have hne : e.1 ≠ i := by
        intro hcon
        exact hni (hcon ▸ List.mem_map_of_mem Prod.fst ht)
      simp only [lookupP, if_neg hne]
      exact ih hnd' ht

/-- The close loop never touches `authenticated`. -/
theorem closeLoop_authenticated (l : List (Int × PendingReq)) (st : ProtoState) :
    (closeLoop l st).1.authenticated = st.authenticated := by
  induction l generalizing st with
  | nil => rfl
  | cons e t ih =>
    obtain ⟨j, r0⟩ := e
    simp only [closeLoop]
    cases hl : lookupP st.pending j with
    | none => exact ih st
    | some rj =>
      cases hk : rj.kind <;> simp only [applyReject, hk] <;> exact ih _

/-- Pending entries a main-request target id can name: decidable
well-formedness saying every id captured as some main entry's `dummyId`
maps (if at all) to a sentinel entry.  States reachable from `send` satisfy
this: the captured `dummyId` is always the id of the paired dummy entry. -/
def sentinelTargetsOk (l : List (Int × PendingReq)) : Bool :=
  l.all (fun e =>
    match e.2.kind with
    | .mainReq d =>
      l.all (fun e2 =>
        if e2.1 = d then
          match e2.2.kind with
          | .sentinel _ => true
          | _ => false
        else true)
    | _ => true)

theorem sentinelTargetsOk_spec {l : List (Int × PendingReq)}
    (h : sentinelTargetsOk l = true) {i : Int} {r : PendingReq}
    (hm : (i, r) ∈ l) {d : Int} (hk : r.kind = .mainReq d)
    {s : PendingReq} (hm2 : (d, s) ∈ l) : ∃ m, s.kind = .sentinel m := by
  have h1 := List.all_eq_true.1 h _ hm
  simp only [hk] at h1
  have h2 := List.all_eq_true.1 h1 _ hm2
  simp only [if_pos rfl] at h2
  cases hs : s.kind with
  | auth => rw [hs] at h2; cases h2
  | mainReq d2 => rw [hs] at h2; cases h2
  | sentinel m => exact ⟨m, rfl⟩

/-- Every auth or main entry of the snapshot list that is still present in
the live map when the close loop reaches it gets a connection-closed
rejection; main entries only ever delete their sentinel partner (by
`sentinelTargetsOk`), so auth/main entries are never skipped. -/
theorem closeLoop_rejects (P : List (Int × PendingReq))
    (hwf : ∀ i r, (i, r) ∈ P → ∀ d, r.kind = .mainReq d →
      ∀ s, (d, s) ∈ P → ∃ m, s.kind = .sentinel m) :
    ∀ (l : List (Int × PendingReq)) (st : ProtoState),
    (∀ i r, lookupP st.pending i = some r → (i, r) ∈ P) →
    ∀ i r, (i, r) ∈ l → lookupP st.pending i = some r →
    (r.kind = .auth ∨ ∃ d, r.kind = .mainReq d) →
    Outcome.rejected i "Connection closed" ∈ (closeLoop l st).2 := by
  intro l
  induction l with
  | nil => intro st _ i r hm; cases hm
  | cons e t ih =>
    intro st hinv i r hm hlk hr
    obtain ⟨j, r0⟩ := e
    simp only [closeLoop]
    cases hl : lookupP st.pending j with
    | none =>
      rcases List.mem_cons.1 hm with he | ht
      · exfalso
        have : j = i := congrArg Prod.fst he.symm
        rw [this, hlk] at hl
        cases hl
      · exact ih st hinv i r ht hlk hr
    | some rj =>
      by_cases hij : j = i
      · -- our entry's turn: its reject closure fires now
        subst hij
        rw [hlk] at hl
        injection hl with hlrj
        subst hlrj
        rcases hr with hk | ⟨d, hk⟩
        · simp only [applyReject, hk]
          exact List.mem_append.2 (Or.inl (List.mem_singleton.2 rfl))
        · simp only [applyReject, hk]
          exact List.mem_append.2 (Or.inl (List.mem_singleton.2 rfl))
      · -- someone else's turn: our entry survives it
        have ht : (i, r) ∈ t := by
          rcases List.mem_cons.1 hm with he | ht
          · exact absurd (congrArg Prod.fst he.symm) hij
          · exact ht
        cases hk : rj.kind with
        | auth =>
          simp only [applyReject, hk]
          exact List.mem_append.2 (Or.inr (ih st hinv i r ht hlk hr))
        | sentinel m =>
          simp only [applyReject, hk]
          exact List.mem_append.2 (Or.inr (ih st hinv i r ht hlk hr))
        | mainReq d =>
          simp only [applyReject, hk]
          have hid : i ≠ d := by
            intro hcon
            have hjP : (j, rj) ∈ P := hinv _ _ hl
            have hiP : (i, r) ∈ P := hinv _ _ hlk
            obtain ⟨m, hs⟩ := hwf j rj hjP d hk r (hcon ▸ hiP)
            rcases hr with hra | ⟨d2, hrm⟩
            · rw [hra] at hs; cases hs
            · rw [hrm] at hs; cases hs
          have hlk' : lookupP (eraseP (eraseP st.pending j) d) i = some r := by
            rw [lookupP_eraseP_ne _ (fun hc : d = i => hid hc.symm),
              lookupP_eraseP_ne _ hij]
            exact hlk
          have hinv' : ∀ i' r',
              lookupP (eraseP (eraseP st.pending j) d) i' = some r' →
              (i', r') ∈ P := by
            intro i' r' h'
            exact hinv i' r' (lookupP_eraseP_some (lookupP_eraseP_some h'))
          exact List.mem_append.2
            (Or.inr (ih { st with pending := eraseP (eraseP st.pending j) d }
              hinv' i r ht hlk' hr))

/-- **C7**: on the connection's `close` event, every outstanding auth or
main (`send`) request is rejected with the connection-closed error, the
pending map is cleared, and `authenticated` is set to `false` — no caller
promise is left unresolved.  (Dummy sentinel entries carry no caller
promise: their `reject` is `() => {}`; they are likewise removed by the
final `clear()`.)  Hypotheses: distinct map keys (a JS `Map` invariant) and
`sentinelTargetsOk` (every state `send` builds satisfies it). -/
theorem c7_close_rejects_all (st : ProtoState)
    (hnd : (st.pending.map Prod.fst).Nodup)
    (hwf : sentinelTargetsOk st.pending = true) :
    (onClose st).1.pending = [] ∧
    (onClose st).1.authenticated = false ∧
    ∀ i r, (i, r) ∈ st.pending →
      (r.kind = .auth ∨ ∃ d, r.kind = .mainReq d) →
      Outcome.rejected i "Connection closed" ∈ (onClose st).2 := by
  refine ⟨rfl, ?_, ?_⟩
  · show (closeLoop st.pending { st with authenticated := false }).1.authenticated = false
    rw [closeLoop_authenticated]
  · intro i r hm hr
    have hlk : lookupP st.pending i = some r := mem_lookupP hnd hm
    exact closeLoop_rejects st.pending
      (fun i' r' hm' d hk' s hm2 => sentinelTargetsOk_spec hwf hm' hk' hm2)
      st.pending { st with authenticated := false }
      (fun i' r' h' => lookupP_mem h') i r hm hlk hr

/-- **C7 witness**: an auth entry plus a main/sentinel pair; both
caller-facing requests get the connection-closed rejection, the map is
cleared, and `authenticated` drops to `false`. -/
theorem c7_close_rejects_all_witness :
    (onClose ⟨true, 3, true, [(1, ⟨.auth, "auth", []⟩),
      (2, ⟨.mainReq 3, "list", ["a"]⟩), (3, ⟨.sentinel 2, "dummy", []⟩)]⟩).1.pending = [] ∧
    (onClose ⟨true, 3, true, [(1, ⟨.auth, "auth", []⟩),
      (2, ⟨.mainReq 3, "list", ["a"]⟩), (3, ⟨.sentinel 2, "dummy", []⟩)]⟩).1.authenticated
        = false ∧
    Outcome.rejected 2 "Connection closed" ∈
      (onClose ⟨true, 3, true, [(1, ⟨.auth, "auth", []⟩),
        (2, ⟨.mainReq 3, "list", ["a"]⟩), (3, ⟨.sentinel 2, "dummy", []⟩)]⟩).2 := by
  have h := c7_close_rejects_all
    ⟨true, 3, true, [(1, ⟨.auth, "auth", []⟩),
      (2, ⟨.mainReq 3, "list", ["a"]⟩), (3, ⟨.sentinel 2, "dummy", []⟩)]⟩
    (by decide) (by decide)
  exact ⟨h.1, h.2.1, h.2.2 2 ⟨.mainReq 3, "list", ["a"]⟩ (by decide)
    (Or.inr ⟨3, rfl⟩)⟩

/-! ### C5: encoder layout -/

theorem le4_u (n : Nat) (rest : List Nat) (h : n < 4294967296) :
    (le4 n ++ rest).getD 0 0 + 256 * (le4 n ++ rest).getD 1 0 +
      65536 * (le4 n ++ rest).getD 2 0 + 16777216 * (le4 n ++ rest).getD 3 0 = n := by
  simp [le4, List.getD]
  omega

/-- Decoding reads back exactly what `writeInt32LE` wrote, for any value in
the signed 32-bit range. -/
theorem read_write32 (v : Int) (rest : List Nat)
    (h1 : -2147483648 ≤ v) (h2 : v < 2147483648) :
    readInt32LE (write32 v ++ rest) 0 = v := by
  have h0 : 0 ≤ v % 4294967296 := Int.emod_nonneg v (by norm_num)
  have hlt : v % 4294967296 < 4294967296 := Int.emod_lt_of_pos v (by norm_num)
  have hn : (((v % 4294967296).toNat : Int)) = v % 4294967296 :=
    Int.toNat_of_nonneg h0
  have hsz : (v % 4294967296).toNat < 4294967296 := by omega
  have hw : write32 v = le4 ((v % 4294967296).toNat) := rfl
  rw [readInt32LE, hw]
  rw [show (0+1 : Nat) = 1 from rfl, show (0+2 : Nat) = 2 from rfl,
    show (0+3 : Nat) = 3 from rfl]
  rw [le4_u _ rest hsz]
  split <;> omega

theorem readInt32LE_append4 (a b c d : Nat) (R : List Nat) (off : Nat) :
    readInt32LE ([a, b, c, d] ++ R) (off + 4) = readInt32LE R off := by
  simp [readInt32LE, List.getD_cons_succ]

/-- **C5**: for every id, type and body (byte ranges as `writeInt32LE`
accepts them), `createPacket` produces a buffer whose declared size field
equals `4 + 4 + bodyLength + 2`, laid out as little-endian 32-bit size,
little-endian 32-bit id, little-endian 32-bit type, the body bytes, then
exactly two zero bytes, with total length `size + 4`. -/
theorem c5_createPacket_layout (id type : Int) (body : List Nat)
    (hid1 : -2147483648 ≤ id) (hid2 : id < 2147483648)
    (hty1 : -2147483648 ≤ type) (hty2 : type < 2147483648)
    (hlen : (body.length : Int) + 10 < 2147483648) :
    (createPacket id type body).length = (4 + 4 + body.length + 2) + 4 ∧
    readInt32LE (createPacket id type body) 0 = ((4 + 4 + body.length + 2 : Nat) : Int) ∧
    readInt32LE (createPacket id type body) 4 = id ∧
    readInt32LE (createPacket id type body) 8 = type ∧
    (createPacket id type body).drop 12 = body ++ [0, 0] := by
  have hcp : createPacket id type body =
      write32 (((4 + 4 + body.length + 2 : Nat) : Int)) ++
        (write32 id ++ (write32 type ++ (body ++ [0, 0]))) := rfl
  obtain ⟨a1, b1, c1, d1, h1⟩ : ∃ a b c d : Nat,
      write32 (((4 + 4 + body.length + 2 : Nat) : Int)) = [a, b, c, d] :=
    ⟨_, _, _, _, rfl⟩
  obtain ⟨a2, b2, c2, d2, h2⟩ : ∃ a b c d : Nat, write32 id = [a, b, c, d] :=
    ⟨_, _, _, _, rfl⟩
  obtain ⟨a3, b3, c3, d3, h3⟩ : ∃ a b c d : Nat, write32 type = [a, b, c, d] :=
    ⟨_, _, _, _, rfl⟩
  refine ⟨?_, ?_, ?_, ?_, ?_⟩
  · rw [hcp, h1, h2, h3]
    simp
    omega
  · rw [hcp]
    exact read_write32 _ _ (by omega) (by push_cast; omega)
  · rw [hcp, h1, show (4 : Nat) = 0 + 4 from rfl, readInt32LE_append4]
    exact read_write32 id _ hid1 hid2
  · rw [hcp, h1, show (8 : Nat) = 0 + 4 + 4 from rfl, readInt32LE_append4,
      h2, readInt32LE_append4]
    exact read_write32 type _ hty1 hty2
  · rw [hcp, h1, h2, h3]
    rfl

/-- **C5 witness**: id 1, type 2, body `"hi"` (bytes 104 105). -/
theorem c5_createPacket_layout_witness :
    (createPacket 1 2 [104, 105]).length = 16 ∧
    readInt32LE (createPacket 1 2 [104, 105]) 0 = 12 ∧
    readInt32LE (createPacket 1 2 [104, 105]) 4 = 1 ∧
    readInt32LE (createPacket 1 2 [104, 105]) 8 = 2 ∧
    (createPacket 1 2 [104, 105]).drop 12 = [104, 105, 0, 0] := by
  have h := c5_createPacket_layout 1 2 [104, 105] (by decide) (by decide)
    (by decide) (by decide) (by decide)
  exact ⟨by simpa using h.1, by simpa using h.2.1, h.2.2.1, h.2.2.2.1,
    by simpa using h.2.2.2.2⟩

/-! ### C4: the decode loop can fail to make progress -/

/-- **C4** (code bug): the claim says every iteration of the `handleData`
loop either consumes a byte or exits.  It does not: with buffered bytes
`FC FF FF FF` the declared size is `-4`, so `size + 4 = 0`,
`buffer.slice(0, 0)` is empty (its parse fails and is logged), and
`buffer.slice(0)` is the whole buffer again — the loop condition
`length >= 4` still holds and the state repeats, so the loop runs forever:
for every fuel bound the model reports the loop still running
(`exited = false`), the buffer unchanged, and no packet produced. -/
theorem c4_negative_size_loops_forever (fuel : Nat) :
    (runLoop fuel [252, 255, 255, 255]).buffer = [252, 255, 255, 255] ∧
    (runLoop fuel [252, 255, 255, 255]).exited = false ∧
    (runLoop fuel [252, 255, 255, 255]).packets = [] := by
  induction fuel with
  | zero => exact ⟨rfl, rfl, rfl⟩
  | succ n ih =>
    have hstep : ∀ out : LoopOut,
        runLoop (n + 1) [252, 255, 255, 255] =
          { runLoop n [252, 255, 255, 255] with
            logs := ("Error parsing packet: " ++ "Packet too small") ::
              (runLoop n [252, 255, 255, 255]).logs } := by
      intro _
      rw [runLoop]
      norm_num [readInt32LE, List.getD, normIdx, parsePacket]
    rw [hstep ⟨[], [], [], [], false⟩]
    exact ⟨ih.1, ih.2.1, ih.2.2⟩

/-! ### C9: undersized packets -/

theorem readInt32LE_append_left (b rest : List Nat) (off : Nat)
    (h : off + 3 < b.length) :
    readInt32LE (b ++ rest) off = readInt32LE b off := by
  unfold readInt32LE
  rw [List.getD_append b rest 0 off (by omega),
    List.getD_append b rest 0 (off+1) (by omega),
    List.getD_append b rest 0 (off+2) (by omega),
    List.getD_append b rest 0 (off+3) (by omega)]

/-- `handleData` never surfaces anything on the error channel: the `catch`
block only logs; there is no `emit('error')`, no rethrow, no teardown. -/
theorem runLoop_errors_nil : ∀ (fuel : Nat) (s : List Nat),
    (runLoop fuel s).errors = [] := by
  intro fuel
  induction fuel with
  | zero => intro s; rfl
  | succ n ih =>
    intro s
    rw [runLoop]
    by_cases h1 : s.length < 4
    · rw [if_pos h1]
    · rw [if_neg h1]
      by_cases h2 : (s.length : Int) < readInt32LE s 0 + 4
      · rw [if_pos h2]
      · rw [if_neg h2]
        simp only []
        cases hp : parsePacket (s.take (normIdx s.length (readInt32LE s 0 + 4))) <;>
          simp [hp, ih]

/-- **C9** (amended): a buffered frame whose declared size is consistent
(`0 ≤ size`) but whose total `size + 4` is below the 14-byte minimum is
reported (`Error parsing packet: Packet too small` is logged), discarded,
and the loop continues with the remaining buffered bytes exactly as if fed
alone; nothing is ever surfaced on the error channel (second conjunct), so
no teardown occurs — and, per the counterexample, no framing desync is
ever escalated to a protocol error either. -/
theorem c9_undersized_packet_skipped (b rest : List Nat) (sz : Int) (fuel : Nat)
    (hread : readInt32LE b 0 = sz)
    (h0 : 0 ≤ sz) (hlt : sz < 10)
    (hblen : (b.length : Int) = sz + 4) :
    runLoop (fuel + 1) (b ++ rest) =
      { runLoop fuel rest with
        logs := ("Error parsing packet: " ++ "Packet too small") ::
          (runLoop fuel rest).logs } ∧
    (∀ f s, (runLoop f s).errors = []) := by
  have hb4 : 4 ≤ b.length := by omega
  have hlen : (b ++ rest).length = b.length + rest.length := List.length_append b rest
  have hr : readInt32LE (b ++ rest) 0 = sz := by
    rw [readInt32LE_append_left b rest 0 (by omega)]
    exact hread
  have hcut : normIdx (b ++ rest).length (sz + 4) = b.length := by
    rw [normIdx, if_neg (by omega : ¬ sz + 4 < 0)]
    have : (sz + 4).toNat = b.length := by omega
    rw [this]
    omega
  refine ⟨?_, runLoop_errors_nil⟩
  rw [runLoop]
  rw [if_neg (by omega : ¬ (b ++ rest).length < 4)]
  rw [hr, if_neg (by omega : ¬ ((b ++ rest).length : Int) < sz + 4)]
  simp only [hcut]
  rw [List.take_left b rest, List.drop_left b rest]
  have hparse : parsePacket b = .error "Packet too small" := by
    rw [parsePacket, if_pos (by omega : b.length < 14)]
  rw [hparse]

/-- **C9 witness**: a 10-byte frame (size 6) followed by a valid packet;
the bad frame is logged and dropped, and the valid packet still decodes. -/
theorem c9_undersized_packet_skipped_witness :
    (runLoop 3 ([6, 0, 0, 0, 0, 0, 0, 0, 0, 0] ++ createPacket 7 0 [65]) =
      { runLoop 2 (createPacket 7 0 [65]) with
        logs := ("Error parsing packet: " ++ "Packet too small") ::
          (runLoop 2 (createPacket 7 0 [65])).logs } ∧
      (∀ f s, (runLoop f s).errors = [])) ∧
    (runLoop 3 ([6, 0, 0, 0, 0, 0, 0, 0, 0, 0] ++ createPacket 7 0 [65])).packets =
      [⟨11, 7, 0, [65]⟩] := by
  refine ⟨c9_undersized_packet_skipped [6, 0, 0, 0, 0, 0, 0, 0, 0, 0]
    (createPacket 7 0 [65]) 6 2 (by decide) (by decide) (by decide) (by decide), ?_⟩
  decide

/-- **C9 counterexample** (for the desync clause of the claim): with
buffered bytes `F8 FF FF FF` (declared size `-8`) the framing is
irrecoverably desynchronised — the loop never exits and never recovers a
valid header — yet nothing is surfaced as a protocol error: the error
channel stays empty, no packet is produced, and the buffer never moves. -/
theorem c9_desync_without_protocol_error :
    (runLoop 5 [248, 255, 255, 255]).exited = false ∧
    (runLoop 5 [248, 255, 255, 255]).errors = [] ∧
    (runLoop 5 [248, 255, 255, 255]).packets = [] ∧
    (runLoop 5 [248, 255, 255, 255]).buffer = [248, 255, 255, 255] := by
  decide

/-! ### C3: chunking invariance of the stream decoder -/

/-- `runLoop` with canonical fuel. -/
def decode (s : List Nat) : LoopOut := runLoop (s.length + 1) s

/-- The packet contribution of one consumed frame. -/
def framePk (s : List Nat) (cut : Nat) : List Packet :=
  match parsePacket (s.take cut) with
  | .ok p => [p]
  | .error _ => []

/-- The log contribution of one consumed frame. -/
def frameLg (s : List Nat) (cut : Nat) : List String :=
  match parsePacket (s.take cut) with
  | .ok _ => []
  | .error e => ["Error parsing packet: " ++ e]

theorem runLoop_succ_small (f : Nat) (s : List Nat) (h : s.length < 4) :
    runLoop (f + 1) s = ⟨[], [], [], s, true⟩ := by
  rw [runLoop, if_pos h]

theorem runLoop_succ_break (f : Nat) (s : List Nat) (h4 : ¬ s.length < 4)
    (hbk : (s.length : Int) < readInt32LE s 0 + 4) :
    runLoop (f + 1) s = ⟨[], [], [], s, true⟩ := by
  rw [runLoop, if_neg h4, if_pos hbk]

theorem runLoop_succ_consume (f : Nat) (s : List Nat) (h4 : ¬ s.length < 4)
    (hbk : ¬ ((s.length : Int) < readInt32LE s 0 + 4)) :
    runLoop (f + 1) s =
      ⟨framePk s (normIdx s.length (readInt32LE s 0 + 4)) ++
          (runLoop f (s.drop (normIdx s.length (readInt32LE s 0 + 4)))).packets,
        frameLg s (normIdx s.length (readInt32LE s 0 + 4)) ++
          (runLoop f (s.drop (normIdx s.length (readInt32LE s 0 + 4)))).logs,
        (runLoop f (s.drop (normIdx s.length (readInt32LE s 0 + 4)))).errors,
        (runLoop f (s.drop (normIdx s.length (readInt32LE s 0 + 4)))).buffer,
        (runLoop f (s.drop (normIdx s.length (readInt32LE s 0 + 4)))).exited⟩ := by
  rw [runLoop, if_neg h4, if_neg hbk]
  simp only [framePk, frameLg]
  cases hp : parsePacket (s.take (normIdx s.length (readInt32LE s 0 + 4))) <;>
    simp [hp]

theorem goodBufF_high : ∀ (n : Nat), ∀ (s : List Nat), s.length ≤ n →
    ∀ f g, s.length < f → s.length < g → goodBufF f s = goodBufF g s := by
  intro n
  induction n with
  | zero =>
    intro s hs f g hf hg
    obtain ⟨f, rfl⟩ : ∃ k, f = k + 1 := ⟨f - 1, by omega⟩
    obtain ⟨g, rfl⟩ : ∃ k, g = k + 1 := ⟨g - 1, by omega⟩
    rw [goodBufF, goodBufF]
    have : s.length < 4 := by omega
    rw [if_pos this, if_pos this]
  | succ n ih =>
    intro s hs f g hf hg
    obtain ⟨f, rfl⟩ : ∃ k, f = k + 1 := ⟨f - 1, by omega⟩
    obtain ⟨g, rfl⟩ : ∃ k, g = k + 1 := ⟨g - 1, by omega⟩
    rw [goodBufF, goodBufF]
    by_cases h4 : s.length < 4
    · rw [if_pos h4, if_pos h4]
    · rw [if_neg h4, if_neg h4]
      by_cases hbk : (s.length : Int) < readInt32LE s 0 + 4
      · rw [if_pos hbk, if_pos hbk]
      · rw [if_neg hbk, if_neg hbk]
        by_cases hneg : readInt32LE s 0 < 0
        · rw [if_pos hneg, if_pos hneg]
        · rw [if_neg hneg, if_neg hneg]
          have hcut : 4 ≤ normIdx s.length (readInt32LE s 0 + 4) := by
            rw [normIdx, if_neg (by omega : ¬ readInt32LE s 0 + 4 < 0)]
            omega
          have hd : (s.drop (normIdx s.length (readInt32LE s 0 + 4))).length =
              s.length - normIdx s.length (readInt32LE s 0 + 4) :=
            List.length_drop _ _
          exact ih _ (by omega) f g (by omega) (by omega)


theorem goodBuf_small (s : List Nat) (h : s.length < 4) : goodBuf s = true := by
  rw [goodBuf, goodBufF, if_pos h]

theorem goodBuf_break (s : List Nat) (h4 : ¬ s.length < 4)
    (hbk : (s.length : Int) < readInt32LE s 0 + 4) : goodBuf s = true := by
  rw [goodBuf, goodBufF, if_neg h4, if_pos hbk]

theorem goodBuf_neg (s : List Nat) (h4 : ¬ s.length < 4)
    (hbk : ¬ ((s.length : Int) < readInt32LE s 0 + 4))
    (hneg : readInt32LE s 0 < 0) : goodBuf s = false := by
  rw [goodBuf, goodBufF, if_neg h4, if_neg hbk, if_pos hneg]

theorem goodBuf_nonneg {s : List Nat} (h4 : ¬ s.length < 4)
    (hbk : ¬ ((s.length : Int) < readInt32LE s 0 + 4))
    (hgb : goodBuf s = true) : 0 ≤ readInt32LE s 0 := by
  by_contra hneg
  rw [goodBuf_neg s h4 hbk (by omega)] at hgb
  cases hgb

theorem cut_ge_four {s : List Nat} (h4 : ¬ s.length < 4)
    (_hbk : ¬ ((s.length : Int) < readInt32LE s 0 + 4))
    (hnn : 0 ≤ readInt32LE s 0) :
    4 ≤ normIdx s.length (readInt32LE s 0 + 4) ∧
    normIdx s.length (readInt32LE s 0 + 4) ≤ s.length := by
  rw [normIdx, if_neg (by omega : ¬ readInt32LE s 0 + 4 < 0)]
  omega

theorem goodBuf_consume (s : List Nat) (h4 : ¬ s.length < 4)
    (hbk : ¬ ((s.length : Int) < readInt32LE s 0 + 4))
    (hnn : ¬ readInt32LE s 0 < 0) :
    goodBuf s = goodBuf (s.drop (normIdx s.length (readInt32LE s 0 + 4))) := by
  rw [goodBuf, goodBufF, if_neg h4, if_neg hbk, if_neg hnn]
  have hc := cut_ge_four h4 hbk (by omega)
  have hd : (s.drop (normIdx s.length (readInt32LE s 0 + 4))).length =
      s.length - normIdx s.length (readInt32LE s 0 + 4) := List.length_drop _ _
  exact goodBufF_high _ _ le_rfl _ _ (by omega) (by omega)

theorem runLoop_high : ∀ (n : Nat), ∀ (s : List Nat), s.length ≤ n →
    goodBuf s = true → ∀ f g, s.length < f → s.length < g →
    runLoop f s = runLoop g s := by
  intro n
  induction n with
  | zero =>
    intro s hs hgb f g hf hg
    obtain ⟨f, rfl⟩ : ∃ k, f = k + 1 := ⟨f - 1, by omega⟩
    obtain ⟨g, rfl⟩ : ∃ k, g = k + 1 := ⟨g - 1, by omega⟩
    rw [runLoop_succ_small f s (by omega), runLoop_succ_small g s (by omega)]
  | succ n ih =>
    intro s hs hgb f g hf hg
    obtain ⟨f, rfl⟩ : ∃ k, f = k + 1 := ⟨f - 1, by omega⟩
    obtain ⟨g, rfl⟩ : ∃ k, g = k + 1 := ⟨g - 1, by omega⟩
    by_cases h4 : s.length < 4
    · rw [runLoop_succ_small f s h4, runLoop_succ_small g s h4]
    · by_cases hbk : (s.length : Int) < readInt32LE s 0 + 4
      · rw [runLoop_succ_break f s h4 hbk, runLoop_succ_break g s h4 hbk]
      · have hnn := goodBuf_nonneg h4 hbk hgb
        have hc := cut_ge_four h4 hbk hnn
        have hd : (s.drop (normIdx s.length (readInt32LE s 0 + 4))).length =
            s.length - normIdx s.length (readInt32LE s 0 + 4) := List.length_drop _ _
        have hrest : goodBuf (s.drop (normIdx s.length (readInt32LE s 0 + 4))) = true := by
          rw [← goodBuf_consume s h4 hbk (by omega)]
          exact hgb
        rw [runLoop_succ_consume f s h4 hbk, runLoop_succ_consume g s h4 hbk]
        rw [ih _ (by omega) hrest f g (by omega) (by omega)]

theorem decode_small (s : List Nat) (h : s.length < 4) :
    decode s = ⟨[], [], [], s, true⟩ := runLoop_succ_small s.length s h

theorem decode_break (s : List Nat) (h4 : ¬ s.length < 4)
    (hbk : (s.length : Int) < readInt32LE s 0 + 4) :
    decode s = ⟨[], [], [], s, true⟩ := runLoop_succ_break s.length s h4 hbk

theorem decode_consume (s : List Nat) (h4 : ¬ s.length < 4)
    (hbk : ¬ ((s.length : Int) < readInt32LE s 0 + 4))
    (hgb : goodBuf s = true) :
    decode s =
      ⟨framePk s (normIdx s.length (readInt32LE s 0 + 4)) ++
          (decode (s.drop (normIdx s.length (readInt32LE s 0 + 4)))).packets,
        frameLg s (normIdx s.length (readInt32LE s 0 + 4)) ++
          (decode (s.drop (normIdx s.length (readInt32LE s 0 + 4)))).logs,
        (decode (s.drop (normIdx s.length (readInt32LE s 0 + 4)))).errors,
        (decode (s.drop (normIdx s.length (readInt32LE s 0 + 4)))).buffer,
        (decode (s.drop (normIdx s.length (readInt32LE s 0 + 4)))).exited⟩ := by
  have hnn := goodBuf_nonneg h4 hbk hgb
  have hc := cut_ge_four h4 hbk hnn
  have hd : (s.drop (normIdx s.length (readInt32LE s 0 + 4))).length =
      s.length - normIdx s.length (readInt32LE s 0 + 4) := List.length_drop _ _
  have hrest : goodBuf (s.drop (normIdx s.length (readInt32LE s 0 + 4))) = true := by
    rw [← goodBuf_consume s h4 hbk (by omega)]
    exact hgb
  rw [decode, runLoop_succ_consume s.length s h4 hbk]
  rw [runLoop_high _ _ le_rfl hrest s.length
    ((s.drop (normIdx s.length (readInt32LE s 0 + 4))).length + 1)
    (by omega) (by omega)]
  rfl


/-- Core append property: decoding `a ++ b` first performs exactly the
frames of `decode a` (some number `k` of loop iterations that only touch
bytes of `a`), leaving `(decode a).buffer ++ b` for the remaining fuel. -/
theorem decode_append_core : ∀ (n : Nat) (a : List Nat), a.length ≤ n →
    goodBuf a = true →
    ∃ k, k + (decode a).buffer.length ≤ a.length ∧ ∀ (f : Nat) (b : List Nat),
      runLoop (k + f) (a ++ b) =
        ⟨(decode a).packets ++ (runLoop f ((decode a).buffer ++ b)).packets,
          (decode a).logs ++ (runLoop f ((decode a).buffer ++ b)).logs,
          (runLoop f ((decode a).buffer ++ b)).errors,
          (runLoop f ((decode a).buffer ++ b)).buffer,
          (runLoop f ((decode a).buffer ++ b)).exited⟩ := by
  intro n
  induction n with
  | zero =>
    intro a ha hgb
    refine ⟨0, by simp [decode_small a (by omega)], ?_⟩
    intro f b
    rw [decode_small a (by omega)]
    simp
  | succ n ih =>
    intro a ha hgb
    by_cases h4 : a.length < 4
    · refine ⟨0, by simp [decode_small a h4], ?_⟩
      intro f b
      rw [decode_small a h4]
      simp
    · by_cases hbk : (a.length : Int) < readInt32LE a 0 + 4
      · refine ⟨0, by simp [decode_break a h4 hbk], ?_⟩
        intro f b
        rw [decode_break a h4 hbk]
        simp
      · -- consume case
        have hnn := goodBuf_nonneg h4 hbk hgb
        have hc := cut_ge_four h4 hbk hnn
        have hd : (a.drop (normIdx a.length (readInt32LE a 0 + 4))).length =
            a.length - normIdx a.length (readInt32LE a 0 + 4) := List.length_drop _ _
        have hrest : goodBuf (a.drop (normIdx a.length (readInt32LE a 0 + 4))) = true := by
          rw [← goodBuf_consume a h4 hbk (by omega)]
          exact hgb
        obtain ⟨k, hk, hrun⟩ := ih _ (by omega) hrest
        refine ⟨k + 1, ?_, ?_⟩
        · rw [decode_consume a h4 hbk hgb]
          simp only []
          omega
        · intro f b
          -- one step on a ++ b consumes the same first frame
          have hlab : (a ++ b).length = a.length + b.length := List.length_append a b
          have hrd : readInt32LE (a ++ b) 0 = readInt32LE a 0 :=
            readInt32LE_append_left a b 0 (by omega)
          have h4ab : ¬ (a ++ b).length < 4 := by omega
          have hbkab : ¬ ((a ++ b).length : Int) < readInt32LE (a ++ b) 0 + 4 := by
            rw [hrd]
            omega
          have hcutab : normIdx (a ++ b).length (readInt32LE (a ++ b) 0 + 4) =
              normIdx a.length (readInt32LE a 0 + 4) := by
            rw [hrd, normIdx, normIdx,
              if_neg (by omega : ¬ readInt32LE a 0 + 4 < 0),
              if_neg (by omega : ¬ readInt32LE a 0 + 4 < 0)]
            omega
          have htake : (a ++ b).take (normIdx a.length (readInt32LE a 0 + 4)) =
              a.take (normIdx a.length (readInt32LE a 0 + 4)) :=
            List.take_append_of_le_length (by omega)
          have hdrop : (a ++ b).drop (normIdx a.length (readInt32LE a 0 + 4)) =
              a.drop (normIdx a.length (readInt32LE a 0 + 4)) ++ b :=
            List.drop_append_of_le_length (by omega)
          have hstep := runLoop_succ_consume (k + f) (a ++ b) h4ab hbkab
          rw [show k + 1 + f = (k + f) + 1 from by omega, hstep]
          rw [hcutab, hdrop, hrun f b]
          rw [decode_consume a h4 hbk hgb]
          have hfpk : framePk (a ++ b) (normIdx a.length (readInt32LE a 0 + 4)) =
              framePk a (normIdx a.length (readInt32LE a 0 + 4)) := by
            rw [framePk, framePk, htake]
          have hflg : frameLg (a ++ b) (normIdx a.length (readInt32LE a 0 + 4)) =
              frameLg a (normIdx a.length (readInt32LE a 0 + 4)) := by
            rw [frameLg, frameLg, htake]
          rw [hfpk, hflg]
          simp [List.append_assoc]


theorem goodBuf_append_left : ∀ (n : Nat) (a b : List Nat), a.length ≤ n →
    goodBuf (a ++ b) = true → goodBuf a = true := by
  intro n
  induction n with
  | zero =>
    intro a b ha _
    exact goodBuf_small a (by omega)
  | succ n ih =>
    intro a b ha hgb
    by_cases h4 : a.length < 4
    · exact goodBuf_small a h4
    · by_cases hbk : (a.length : Int) < readInt32LE a 0 + 4
      · exact goodBuf_break a h4 hbk
      · have hlab : (a ++ b).length = a.length + b.length := List.length_append a b
        have hrd : readInt32LE (a ++ b) 0 = readInt32LE a 0 :=
          readInt32LE_append_left a b 0 (by omega)
        have h4ab : ¬ (a ++ b).length < 4 := by omega
        have hbkab : ¬ ((a ++ b).length : Int) < readInt32LE (a ++ b) 0 + 4 := by
          rw [hrd]
          omega
        have hnn : 0 ≤ readInt32LE a 0 := by
          have := goodBuf_nonneg h4ab hbkab hgb
          omega
        have hc := cut_ge_four h4 hbk hnn
        have hcutab : normIdx (a ++ b).length (readInt32LE (a ++ b) 0 + 4) =
            normIdx a.length (readInt32LE a 0 + 4) := by
          rw [hrd, normIdx, normIdx,
            if_neg (by omega : ¬ readInt32LE a 0 + 4 < 0),
            if_neg (by omega : ¬ readInt32LE a 0 + 4 < 0)]
          omega
        have hdrop : (a ++ b).drop (normIdx a.length (readInt32LE a 0 + 4)) =
            a.drop (normIdx a.length (readInt32LE a 0 + 4)) ++ b :=
          List.drop_append_of_le_length (by omega)
        have hd : (a.drop (normIdx a.length (readInt32LE a 0 + 4))).length =
            a.length - normIdx a.length (readInt32LE a 0 + 4) := List.length_drop _ _
        have hgbrest : goodBuf (a.drop (normIdx a.length (readInt32LE a 0 + 4)) ++ b)
            = true := by
          rw [← hdrop, ← hcutab, ← goodBuf_consume (a ++ b) h4ab hbkab (by omega)]
          exact hgb
        rw [goodBuf_consume a h4 hbk (by omega)]
        exact ih _ b (by omega) hgbrest

theorem goodBuf_rest_append : ∀ (n : Nat) (a b : List Nat), a.length ≤ n →
    goodBuf (a ++ b) = true → goodBuf ((decode a).buffer ++ b) = true := by
  intro n
  induction n with
  | zero =>
    intro a b ha hgb
    rw [decode_small a (by omega)]
    exact hgb
  | succ n ih =>
    intro a b ha hgb
    by_cases h4 : a.length < 4
    · rw [decode_small a h4]
      exact hgb
    · by_cases hbk : (a.length : Int) < readInt32LE a 0 + 4
      · rw [decode_break a h4 hbk]
        exact hgb
      · have hga : goodBuf a = true := goodBuf_append_left (n+1) a b ha hgb
        have hnn := goodBuf_nonneg h4 hbk hga
        have hc := cut_ge_four h4 hbk hnn
        have hlab : (a ++ b).length = a.length + b.length := List.length_append a b
        have hrd : readInt32LE (a ++ b) 0 = readInt32LE a 0 :=
          readInt32LE_append_left a b 0 (by omega)
        have h4ab : ¬ (a ++ b).length < 4 := by omega
        have hbkab : ¬ ((a ++ b).length : Int) < readInt32LE (a ++ b) 0 + 4 := by
          rw [hrd]
          omega
        have hcutab : normIdx (a ++ b).length (readInt32LE (a ++ b) 0 + 4) =
            normIdx a.length (readInt32LE a 0 + 4) := by
          rw [hrd, normIdx, normIdx,
            if_neg (by omega : ¬ readInt32LE a 0 + 4 < 0),
            if_neg (by omega : ¬ readInt32LE a 0 + 4 < 0)]
          omega
        have hdrop : (a ++ b).drop (normIdx a.length (readInt32LE a 0 + 4)) =
            a.drop (normIdx a.length (readInt32LE a 0 + 4)) ++ b :=
          List.drop_append_of_le_length (by omega)
        have hd : (a.drop (normIdx a.length (readInt32LE a 0 + 4))).length =
            a.length - normIdx a.length (readInt32LE a 0 + 4) := List.length_drop _ _
        have hgbrest : goodBuf (a.drop (normIdx a.length (readInt32LE a 0 + 4)) ++ b)
            = true := by
          rw [← hdrop, ← hcutab, ← goodBuf_consume (a ++ b) h4ab hbkab (by omega)]
          exact hgb
        rw [decode_consume a h4 hbk hga]
        exact ih _ b (by omega) hgbrest

theorem decode_buffer_quies : ∀ (n : Nat) (s : List Nat), s.length ≤ n →
    goodBuf s = true →
    decode ((decode s).buffer) = ⟨[], [], [], (decode s).buffer, true⟩ := by
  intro n
  induction n with
  | zero =>
    intro s hs _
    rw [decode_small s (by omega)]
    exact decode_small s (by omega)
  | succ n ih =>
    intro s hs hgb
    by_cases h4 : s.length < 4
    · rw [decode_small s h4]
      exact decode_small s h4
    · by_cases hbk : (s.length : Int) < readInt32LE s 0 + 4
      · rw [decode_break s h4 hbk]
        exact decode_break s h4 hbk
      · have hnn := goodBuf_nonneg h4 hbk hgb
        have hc := cut_ge_four h4 hbk hnn
        have hd : (s.drop (normIdx s.length (readInt32LE s 0 + 4))).length =
            s.length - normIdx s.length (readInt32LE s 0 + 4) := List.length_drop _ _
        have hrest : goodBuf (s.drop (normIdx s.length (readInt32LE s 0 + 4))) = true := by
          rw [← goodBuf_consume s h4 hbk (by omega)]
          exact hgb
        rw [decode_consume s h4 hbk hgb]
        exact ih _ (by omega) hrest


/-- Decoding a concatenation equals decoding the first part, then feeding
the leftover buffer together with the second part. -/
theorem decode_append (a b : List Nat) (hgb : goodBuf (a ++ b) = true) :
    decode (a ++ b) =
      ⟨(decode a).packets ++ (decode ((decode a).buffer ++ b)).packets,
        (decode a).logs ++ (decode ((decode a).buffer ++ b)).logs,
        (decode ((decode a).buffer ++ b)).errors,
        (decode ((decode a).buffer ++ b)).buffer,
        (decode ((decode a).buffer ++ b)).exited⟩ := by
  have hga : goodBuf a = true := goodBuf_append_left a.length a b le_rfl hgb
  obtain ⟨k, hk, hrun⟩ := decode_append_core a.length a le_rfl hga
  have hgrest : goodBuf ((decode a).buffer ++ b) = true :=
    goodBuf_rest_append a.length a b le_rfl hgb
  have hlab : (a ++ b).length = a.length + b.length := List.length_append a b
  have hlrb : ((decode a).buffer ++ b).length = (decode a).buffer.length + b.length :=
    List.length_append _ b
  have hf : (a ++ b).length + 1 = k + ((a ++ b).length + 1 - k) := by omega
  rw [decode, hf, hrun ((a ++ b).length + 1 - k) b]
  rw [runLoop_high ((decode a).buffer ++ b).length _ le_rfl hgrest
    ((a ++ b).length + 1 - k) (((decode a).buffer ++ b).length + 1)
    (by omega) (by omega)]
  rfl

/-- Chunked feeding with a quiescent initial buffer produces exactly the
packets and final buffer of the one-shot decode. -/
theorem feedAll_join : ∀ (cs : List (List Nat)) (p : List Nat),
    goodBuf (p ++ cs.flatten) = true →
    decode p = ⟨[], [], [], p, true⟩ →
    feedAll p cs =
      ((decode (p ++ cs.flatten)).packets, (decode (p ++ cs.flatten)).buffer) := by
  intro cs
  induction cs with
  | nil =>
    intro p _ hq
    rw [feedAll, show (([] : List (List Nat)).flatten) = ([] : List Nat) from rfl,
      List.append_nil, hq]
  | cons c cs ih =>
    intro p hgb hq
    have hj : (c :: cs).flatten = c ++ cs.flatten := rfl
    rw [hj, ← List.append_assoc] at hgb ⊢
    have hda := decode_append (p ++ c) cs.flatten hgb
    have hga : goodBuf (p ++ c) = true :=
      goodBuf_append_left (p ++ c).length _ _ le_rfl hgb
    have hquies := decode_buffer_quies (p ++ c).length (p ++ c) le_rfl hga
    have hgrest : goodBuf ((decode (p ++ c)).buffer ++ cs.flatten) = true :=
      goodBuf_rest_append (p ++ c).length (p ++ c) cs.flatten le_rfl hgb
    have hih := ih ((decode (p ++ c)).buffer) hgrest hquies
    rw [feedAll]
    have hhd : handleData p c = decode (p ++ c) := rfl
    rw [hhd, hih, hda]

/-- **C3** (amended): (1) for every stream whose frame size fields (read at
the loop's own frame boundaries) are all nonnegative, feeding it to
`handleData` split into arbitrary chunks yields exactly the same decoded
packets and the same retained buffer as feeding it as one contiguous
buffer; (2) whenever the buffered bytes hold fewer than `size + 4` bytes,
the loop exits consuming nothing, the buffer retained unchanged. -/
theorem c3_chunking_invariant :
    (∀ chunks : List (List Nat), goodBuf chunks.flatten = true →
      feedAll [] chunks =
        ((handleData [] chunks.flatten).packets,
          (handleData [] chunks.flatten).buffer)) ∧
    (∀ (buf : List Nat) (fuel : Nat), 4 ≤ buf.length →
      (buf.length : Int) < readInt32LE buf 0 + 4 →
      runLoop (fuel + 1) buf = ⟨[], [], [], buf, true⟩) := by
  constructor
  · intro chunks hgb
    have h0 : decode ([] : List Nat) = ⟨[], [], [], [], true⟩ :=
      decode_small [] (by decide)
    have h := feedAll_join chunks [] (by simpa using hgb) h0
    simpa using h
  · intro buf fuel h4 hbk
    exact runLoop_succ_break fuel buf (by omega) hbk

/-- **C3 witness**: a valid 15-byte packet split after its fifth byte
decodes identically to the contiguous feed, and a 4-byte buffer announcing
a 2-byte... (size 2 means 6 total bytes) is retained unchanged. -/
theorem c3_chunking_invariant_witness :
    (feedAll [] [[11, 0, 0, 0, 1], [0, 0, 0, 0, 0, 0, 0, 65, 0, 0]] =
      ((handleData []
        (List.flatten [[11, 0, 0, 0, 1], [0, 0, 0, 0, 0, 0, 0, 65, 0, 0]])).packets,
       (handleData []
        (List.flatten [[11, 0, 0, 0, 1], [0, 0, 0, 0, 0, 0, 0, 65, 0, 0]])).buffer)) ∧
    runLoop 3 [2, 0, 0, 0] = ⟨[], [], [], [2, 0, 0, 0], true⟩ := by
  constructor
  · exact c3_chunking_invariant.1 [[11, 0, 0, 0, 1], [0, 0, 0, 0, 0, 0, 0, 65, 0, 0]]
      (by decide)
  · exact c3_chunking_invariant.2 [2, 0, 0, 0] 2 (by decide) (by decide)

/-- **C3 counterexample**: the claim as stated quantifies over *every* byte
sequence.  With the malformed prefix `FB FF FF FF` (declared size `-5`),
`slice`'s negative-index arithmetic desynchronises the framing in a
chunking-dependent way: fed contiguously with a following valid packet the
loop mis-frames and emits one garbage packet; fed as two chunks it emits
none. -/
theorem c3_chunking_dependent :
    (handleData [] ([251, 255, 255, 255] ++ createPacket 1 0 [])).packets.length = 1 ∧
    (feedAll [] [[251, 255, 255, 255], createPacket 1 0 []]).1 = [] := by
  decide

end Rcon
